import Mathlib

/-!
Shallow embedding of the klonk execution engine (TypeScript) and proofs about it.

Sources embedded here:
* the `Railroad`/`Result` contract (`Task.ts`),
* `Playlist.run` with skip / validate / retry semantics (`Playlist.ts`, retry-capable version),
* `StateNode.next` weighted transition selection and `Machine.run` with its four
  termination modes (`Machine.ts`, the mode-aware version).

Modelling conventions:
* Promises are pure values; a transition condition is `σ → Option Bool`, where
  `none` models a thrown exception (caught and logged by `StateNode.next`).
* JavaScript numbers used as weights are modelled as `Int`.
* Unbounded `while` loops are modelled with an explicit fuel parameter; a result
  of `none` means the loop did not terminate within the given fuel.
* The JS object used as the outputs map is an ordered association list with
  update-in-place on existing keys and append on fresh keys (`jsSet`).
-/

namespace Klonk

/-- The `Railroad<T>` result contract: `{success: true, data}` or
`{success: false, error}`. -/
inductive Railroad (E A : Type) where
  | success (data : A)
  | failure (error : E)
deriving DecidableEq, Repr

/-- `result.success` as read by `Playlist.run`. -/
def Railroad.isSuccess {E A : Type} : Railroad E A → Bool
  | .success _ => true
  | .failure _ => false

/-- A weighted conditional edge (`Transition` in `Machine.ts`), with the target
generalized over a type `β` (a resolved node ident for the machine). The
condition returns `none` to model a thrown exception. -/
structure Transition (σ β : Type) where
  «to» : β
  condition : σ → Option Bool
  weight : Int

/-- Whether a transition's condition returns `true` on the given state (a
thrown exception, modelled by `none`, does not fire). -/
def condFires {σ β : Type} (data : σ) (t : Transition σ β) : Bool :=
  t.condition data == some true

/-- A transition paired with its declaration index, mirroring
`.map((t, i) => ({t, i}))` in `StateNode.next`. -/
structure ITrans (σ β : Type) where
  t : Transition σ β
  i : Nat

/-- `.map((t, i) => ({t, i}))`: pair each transition with its index, starting at `k`. -/
def withIdxFrom {σ β : Type} (k : Nat) : List (Transition σ β) → List (ITrans σ β)
  | [] => []
  | t :: ts => ⟨t, k⟩ :: withIdxFrom (k + 1) ts

def withIdx {σ β : Type} (ts : List (Transition σ β)) : List (ITrans σ β) :=
  withIdxFrom 0 ts

/-- The sort order of `StateNode.next`:
`.sort((a, b) => (b.t.weight ?? 0) - (a.t.weight ?? 0) || a.i - b.i)`,
i.e. descending weight with declaration index as the tie-break. -/
def transBefore {σ β : Type} (a b : ITrans σ β) : Prop :=
  b.t.weight < a.t.weight ∨ (a.t.weight = b.t.weight ∧ a.i ≤ b.i)

instance {σ β : Type} : DecidableRel (@transBefore σ β) := fun a b => by
  unfold transBefore; infer_instance

instance {σ β : Type} : IsTotal (ITrans σ β) transBefore where
  total a b := by
    unfold transBefore
    rcases lt_trichotomy a.t.weight b.t.weight with h | h | h
    · exact Or.inr (Or.inl h)
    · rcases Nat.le_total a.i b.i with hi | hi
      · exact Or.inl (Or.inr ⟨h, hi⟩)
      · exact Or.inr (Or.inr ⟨h.symm, hi⟩)
    · exact Or.inl (Or.inl h)

instance {σ β : Type} : IsTrans (ITrans σ β) transBefore where
  trans a b c hab hbc := by
    unfold transBefore at *
    rcases hab with h1 | ⟨h1, hi1⟩
    · rcases hbc with h2 | ⟨h2, hi2⟩
      · exact Or.inl (h2.trans h1)
      · exact Or.inl (h2 ▸ h1)
    · rcases hbc with h2 | ⟨h2, hi2⟩
      · exact Or.inl (h1 ▸ h2)
      · exact Or.inr ⟨h1.trans h2, hi1.trans hi2⟩

/-- The sorted candidate list built by `StateNode.next`: since the comparator is
a total order on index-decorated transitions, the JS sort result is the unique
sorted permutation, here computed by insertion sort. -/
def sortedTrans {σ β : Type} (ts : List (Transition σ β)) : List (ITrans σ β) :=
  List.insertionSort transBefore (withIdx ts)

/-- `StateNode.next` (Machine.ts): evaluate the sorted candidates in order and
return the target of the first transition whose condition returns `true`; a
condition that throws (`none`) is treated as not firing; return `null` (`none`)
if nothing fires. -/
def nextTrans {σ β : Type} (ts : List (Transition σ β)) (data : σ) : Option β :=
  ((sortedTrans ts).find? (fun p => condFires data p.t)).map (fun p => p.t.«to»)

theorem transBefore_refl {σ β : Type} (a : ITrans σ β) : transBefore a a :=
  Or.inr ⟨rfl, Nat.le_refl _⟩

theorem mem_of_mem_withIdxFrom {σ β : Type} {k : Nat} {ts : List (Transition σ β)}
    {p : ITrans σ β} (h : p ∈ withIdxFrom k ts) : p.t ∈ ts := by
  induction ts generalizing k with
  | nil => cases h
  | cons t rest ih =>
    rw [withIdxFrom] at h
    rcases List.mem_cons.mp h with rfl | h
    · exact List.mem_cons_self ..
    · exact List.mem_cons_of_mem _ (ih h)

theorem exists_withIdxFrom_of_mem {σ β : Type} {ts : List (Transition σ β)}
    {t : Transition σ β} (h : t ∈ ts) (k : Nat) :
    ∃ p ∈ withIdxFrom k ts, p.t = t := by
  induction ts generalizing k with
  | nil => cases h
  | cons u rest ih =>
    rw [withIdxFrom]
    rcases List.mem_cons.mp h with rfl | h
    · exact ⟨⟨t, k⟩, List.mem_cons_self .., rfl⟩
    · obtain ⟨p, hp, hpt⟩ := ih h (k + 1)
      exact ⟨p, List.mem_cons_of_mem _ hp, hpt⟩

theorem find?_sorted_minimal {σ β : Type} {l : List (ITrans σ β)} {a : ITrans σ β}
    {p : ITrans σ β → Bool}
    (hs : List.Sorted transBefore l) (hf : l.find? p = some a) :
    ∀ q ∈ l, p q = true → transBefore a q := by
  induction l with
  | nil => cases hf
  | cons x xs ih =>
    intro q hq hpq
    rcases List.sorted_cons.mp hs with ⟨hx1, hx2⟩
    by_cases hx : p x = true
    · rw [List.find?_cons_of_pos _ hx] at hf
      cases hf
      rcases List.mem_cons.mp hq with rfl | hq
      · exact transBefore_refl _
      · exact hx1 q hq
    · rw [List.find?_cons_of_neg _ hx] at hf
      rcases List.mem_cons.mp hq with rfl | hq
      · exact absurd hpq hx
      · exact ih hx2 hf q hq hpq

theorem mem_sortedTrans_iff {σ β : Type} {ts : List (Transition σ β)} {p : ITrans σ β} :
    p ∈ sortedTrans ts ↔ p ∈ withIdx ts :=
  (List.perm_insertionSort transBefore (withIdx ts)).mem_iff

/-- C4: `StateNode.next` selection characterization. The run never selects a
non-firing transition; when it returns `none` no transition fires (in
particular for a node with no transitions); when it returns a target, that
target belongs to a firing transition that is minimal for "higher weight
first, declaration order as tie-break" among all firing transitions — so for
equal weights the first declared firing transition is chosen, and a
higher-weight firing transition is always preferred over a lower-weight one
regardless of declaration order. -/
theorem stateNode_next_selection_spec {σ β : Type} (ts : List (Transition σ β)) (data : σ) :
    (nextTrans ts data = none ↔ ∀ t ∈ ts, condFires data t = false) ∧
    (∀ b, nextTrans ts data = some b →
      ∃ p ∈ withIdx ts, p.t.«to» = b ∧ condFires data p.t = true ∧
        ∀ q ∈ withIdx ts, condFires data q.t = true →
          (q.t.weight < p.t.weight ∨ (p.t.weight = q.t.weight ∧ p.i ≤ q.i))) := by
  constructor
  · constructor
    · intro h t ht
      obtain ⟨p, hp, hpt⟩ := exists_withIdxFrom_of_mem ht 0
      have hfind : (sortedTrans ts).find? (fun q => condFires data q.t) = none := by
        unfold nextTrans at h
        exact Option.map_eq_none'.mp h
      have := List.find?_eq_none.mp hfind p (mem_sortedTrans_iff.mpr hp)
      simp only [hpt] at this
      exact Bool.not_eq_true _ ▸ Bool.of_not_eq_true this
    · intro h
      unfold nextTrans
      rw [List.find?_eq_none.mpr]
      · rfl
      · intro q hq
        have := h q.t (mem_of_mem_withIdxFrom (mem_sortedTrans_iff.mp hq))
        simp [this]
  · intro b hb
    unfold nextTrans at hb
    obtain ⟨a, hfind, hab⟩ := Option.map_eq_some'.mp hb
    have hfire := List.find?_some hfind
    have hmem : a ∈ withIdx ts := mem_sortedTrans_iff.mp (List.mem_of_find?_eq_some hfind)
    refine ⟨a, hmem, hab, hfire, ?_⟩
    intro q hq hqf
    have hsorted : List.Sorted transBefore (sortedTrans ts) :=
      List.sorted_insertionSort transBefore (withIdx ts)
    have := find?_sorted_minimal hsorted hfind q (mem_sortedTrans_iff.mpr hq) hqf
    exact this

/-- Replace a transition's condition by one in which a thrown exception
(modelled by `none`) is turned into an explicit `false` answer; the target and
weight are unchanged. -/
def coerceThrown {σ β : Type} (t : Transition σ β) : Transition σ β :=
  ⟨t.«to», fun d => match t.condition d with
    | none => some false
    | r => r, t.weight⟩

theorem condFires_coerceThrown {σ β : Type} (data : σ) (t : Transition σ β) :
    condFires data (coerceThrown t) = condFires data t := by
  unfold condFires coerceThrown
  cases h : t.condition data <;> simp [h]

def liftCoerce {σ β : Type} (p : ITrans σ β) : ITrans σ β :=
  ⟨coerceThrown p.t, p.i⟩

theorem withIdxFrom_map_coerce {σ β : Type} (k : Nat) (ts : List (Transition σ β)) :
    withIdxFrom k (ts.map coerceThrown) = (withIdxFrom k ts).map liftCoerce := by
  induction ts generalizing k with
  | nil => rfl
  | cons t rest ih => simp [withIdxFrom, ih, liftCoerce]

theorem orderedInsert_map_coerce {σ β : Type} (a : ITrans σ β) (l : List (ITrans σ β)) :
    List.orderedInsert transBefore (liftCoerce a) (l.map liftCoerce) =
      (List.orderedInsert transBefore a l).map liftCoerce := by
  induction l with
  | nil => rfl
  | cons x xs ih =>
    simp only [List.map_cons, List.orderedInsert]
    split_ifs with h1 h2 h2
    · rfl
    · exact absurd h1 h2
    · exact absurd h2 h1
    · simp [ih]

theorem insertionSort_map_coerce {σ β : Type} (l : List (ITrans σ β)) :
    List.insertionSort transBefore (l.map liftCoerce) =
      (List.insertionSort transBefore l).map liftCoerce := by
  induction l with
  | nil => rfl
  | cons x xs ih => simp [List.insertionSort, ih, orderedInsert_map_coerce]

/-- C8: a transition condition that throws is swallowed by `StateNode.next`
and treated exactly as a condition that returns `false`: turning every thrown
exception into an explicit `false` answer changes nothing about the selected
next node, and `StateNode.next` always returns normally (it is a total
function), so the exception neither propagates nor aborts the machine run. -/
theorem stateNode_next_swallows_condition_exception {σ β : Type}
    (ts : List (Transition σ β)) (data : σ) :
    nextTrans (ts.map coerceThrown) data = nextTrans ts data := by
  unfold nextTrans sortedTrans withIdx
  rw [withIdxFrom_map_coerce, insertionSort_map_coerce, List.find?_map]
  have hpred : ((fun p : ITrans σ β => condFires data p.t) ∘ liftCoerce) =
      fun p : ITrans σ β => condFires data p.t := by
    funext p
    exact condFires_coerceThrown data p.t
  rw [hpred, Option.map_map]
  rfl

/-! ## Playlist (Playlist.ts, retry-capable version, lines 153-201) -/

/-- The JS object accumulating outputs, keyed by task ident: an ordered
association list whose keys are unique. -/
abbrev Outputs (E A : Type) : Type := List (String × Option (Railroad E A))

/-- JS object property write `outputs[k] = v`: overwrite in place when the key
exists, append otherwise. -/
def jsSet {E A : Type} (m : Outputs E A) (k : String) (v : Option (Railroad E A)) :
    Outputs E A :=
  if m.any (fun p => p.1 == k) then
    m.map (fun p => if p.1 == k then (k, v) else p)
  else
    m ++ [(k, v)]

/-- JS object property read `outputs[k]`: the value stored at the first (and,
for maps built with `jsSet`, only) occurrence of the key; `none` when the key
is absent. -/
def jsGet {E A : Type} : Outputs E A → String → Option (Option (Railroad E A))
  | [], _ => none
  | p :: rest, k => if p.1 == k then some p.2 else jsGet rest k

/-- A task (`Task.ts`): ident, `validateInput`, and `run`. Tasks may keep
instance state across invocations (e.g. an attempt counter), so `run` also
receives the number of times this task has already been executed for the
current binding. -/
structure TaskB (I E A : Type) where
  ident : String
  validateInput : I → Bool
  run : Nat → I → Railroad E A

/-- A playlist binding (`TaskBundle`): a task plus its input builder. The
builder returns `none` for the JS `null` skip sentinel. -/
structure Bundle (S I E A : Type) where
  task : TaskB I E A
  builder : S → Outputs E A → Option I

/-- Observable events of one `Playlist.run`, in order. `builtInput` records
the outputs snapshot the builder observed and the value it returned. -/
inductive Ev (I E A : Type) where
  | builtInput (ident : String) (seen : Outputs E A) (built : Option I)
  | validated (ident : String) (ok : Bool)
  | executed (ident : String) (input : I) (attempt : Nat)
  | slept
  | finalized
deriving DecidableEq

/-- Errors thrown by `Playlist.run`. -/
inductive PlaylistError where
  | validationFailed (ident : String)
  | taskFailed (ident : String)
deriving DecidableEq, Repr

/-- `options` of `Playlist.run` after destructuring defaults
(`retryDelay = 1000, maxRetries = false`): `none` models `false`. -/
structure PlaylistRunOptions where
  retryDelay : Option Nat := some 1000
  maxRetries : Option Nat := none

/-- `maxRetries !== false && retries >= maxRetries`. -/
def retryLimitReached (maxRetries : Option Nat) (retries : Nat) : Bool :=
  match maxRetries with
  | some m => retries ≥ m
  | none => false

/-- The retry loop of `Playlist.run` (lines 180-193): on entry the initial
execution (attempt 0) has already failed. Each iteration checks the retry
limit, sleeps, increments the attempt counter and re-runs the task with the
same input. Fuel bounds the unbounded `while`; `none` means it did not finish
within the fuel. -/
def retryLoop {I E A : Type} (t : TaskB I E A) (inp : I) (maxRetries : Option Nat) :
    Nat → Nat → Option (List (Ev I E A) × Except PlaylistError (Railroad E A))
  | _, 0 => none
  | retries, fuel + 1 =>
    if retryLimitReached maxRetries retries then
      some ([], .error (.taskFailed t.ident))
    else if (t.run (retries + 1) inp).isSuccess then
      some ([Ev.slept, Ev.executed t.ident inp (retries + 1)], .ok (t.run (retries + 1) inp))
    else
      match retryLoop t inp maxRetries (retries + 1) fuel with
      | none => none
      | some (evs2, out) =>
        some (Ev.slept :: Ev.executed t.ident inp (retries + 1) :: evs2, out)

/-- The events of one binding up to and including the initial execution
(attempt 0). -/
def bindingPrefix {I E A : Type} (ident : String) (outs : Outputs E A) (inp : I) :
    List (Ev I E A) :=
  [Ev.builtInput ident outs (some inp), Ev.validated ident true, Ev.executed ident inp 0]

/-- One iteration of the binding loop of `Playlist.run` (lines 157-196): build
the input, skip on `null`, validate, execute (attempt 0), retry on failure, and
record the result under the task's ident. Returns the events of this binding
together with either the updated outputs map or the thrown error. -/
def runBundle {S I E A : Type} (opts : PlaylistRunOptions) (source : S)
    (b : Bundle S I E A) (outs : Outputs E A) (fuel : Nat) :
    Option (List (Ev I E A) × Except PlaylistError (Outputs E A)) :=
  match b.builder source outs with
  | none =>
    some ([Ev.builtInput b.task.ident outs none], .ok (jsSet outs b.task.ident none))
  | some inp =>
    if b.task.validateInput inp then
      if (b.task.run 0 inp).isSuccess then
        some (bindingPrefix b.task.ident outs inp,
          .ok (jsSet outs b.task.ident (some (b.task.run 0 inp))))
      else
        match opts.retryDelay with
        | none => some (bindingPrefix b.task.ident outs inp, .error (.taskFailed b.task.ident))
        | some _ =>
          match retryLoop b.task inp opts.maxRetries 0 fuel with
          | none => none
          | some (revs, .error e) =>
            some (bindingPrefix b.task.ident outs inp ++ revs, .error e)
          | some (revs, .ok r) =>
            some (bindingPrefix b.task.ident outs inp ++ revs,
              .ok (jsSet outs b.task.ident (some r)))
    else
      some ([Ev.builtInput b.task.ident outs (some inp), Ev.validated b.task.ident false],
        .error (.validationFailed b.task.ident))

/-- The binding loop of `Playlist.run`: run each binding in declaration order,
threading the accumulated outputs; a thrown error aborts the loop. -/
def runBundles {S I E A : Type} (opts : PlaylistRunOptions) (source : S) :
    List (Bundle S I E A) → Outputs E A → Nat →
      Option (List (Ev I E A) × Except PlaylistError (Outputs E A))
  | [], outs, _ => some ([], .ok outs)
  | b :: rest, outs, fuel =>
    match runBundle opts source b outs fuel with
    | none => none
    | some (evs, .error e) => some (evs, .error e)
    | some (evs, .ok outs') =>
      match runBundles opts source rest outs' fuel with
      | none => none
      | some (evs2, out) => some (evs ++ evs2, out)

/-- A playlist: ordered bindings plus an optional finalizer. The finalizer is
user code that observes `(source, outputs)`; in this pure model only its
occurrence is recorded (as an `Ev.finalized` event). -/
structure PlaylistB (S I E A : Type) where
  bundles : List (Bundle S I E A)
  hasFinalizer : Bool

/-- `Playlist.run`: run all bindings, then invoke the finalizer (if any) and
return the accumulated outputs; a thrown error skips the finalizer. -/
def PlaylistB.run {S I E A : Type} (p : PlaylistB S I E A) (source : S)
    (opts : PlaylistRunOptions) (fuel : Nat) :
    Option (List (Ev I E A) × Except PlaylistError (Outputs E A)) :=
  match runBundles opts source p.bundles [] fuel with
  | none => none
  | some (evs, .error e) => some (evs, .error e)
  | some (evs, .ok outs) =>
    some (evs ++ (if p.hasFinalizer then [Ev.finalized] else []), .ok outs)

theorem retryLoop_events {I E A : Type} {t : TaskB I E A} {inp : I} {mr : Option Nat}
    {retries fuel : Nat} {evs : List (Ev I E A)} {out : Except PlaylistError (Railroad E A)}
    (h : retryLoop t inp mr retries fuel = some (evs, out)) :
    ∀ e ∈ evs, e = Ev.slept ∨ ∃ k, e = Ev.executed t.ident inp k := by
  induction fuel generalizing retries evs out with
  | zero => cases h
  | succ fuel ih =>
    rw [retryLoop] at h
    split at h
    · cases h
      intro e he
      cases he
    · split at h
      · cases h
        intro e he
        rcases List.mem_cons.mp he with rfl | he
        · exact Or.inl rfl
        · rcases List.mem_cons.mp he with rfl | he
          · exact Or.inr ⟨retries + 1, rfl⟩
          · cases he
      · split at h
        · cases h
        · rename_i evs2 out2 heq
          cases h
          intro e he
          rcases List.mem_cons.mp he with rfl | he
          · exact Or.inl rfl
          · rcases List.mem_cons.mp he with rfl | he
            · exact Or.inr ⟨retries + 1, rfl⟩
            · exact ih heq e he

theorem runBundle_no_finalized {S I E A : Type} {opts : PlaylistRunOptions} {source : S}
    {b : Bundle S I E A} {outs : Outputs E A} {fuel : Nat} {evs : List (Ev I E A)}
    {out : Except PlaylistError (Outputs E A)}
    (h : runBundle opts source b outs fuel = some (evs, out)) :
    Ev.finalized ∉ evs := by
  have hpre : ∀ (inp : I), Ev.finalized ∉ bindingPrefix b.task.ident outs inp := by
    intro inp he
    rcases List.mem_cons.mp he with h1 | h1
    · cases h1
    rcases List.mem_cons.mp h1 with h2 | h2
    · cases h2
    rcases List.mem_cons.mp h2 with h3 | h3
    · cases h3
    · cases h3
  unfold runBundle at h
  split at h
  · cases h
    intro he
    rcases List.mem_cons.mp he with h1 | h1 <;> cases h1
  · rename_i inp hbuilt
    split at h
    · split at h
      · cases h
        exact hpre inp
      · split at h
        · cases h
          exact hpre inp
        · split at h
          · cases h
          · rename_i revs e2 heq
            cases h
            intro he
            rcases List.mem_append.mp he with h1 | h1
            · exact hpre inp h1
            · rcases retryLoop_events heq _ h1 with h2 | ⟨k, h2⟩ <;> cases h2
          · rename_i revs r heq
            cases h
            intro he
            rcases List.mem_append.mp he with h1 | h1
            · exact hpre inp h1
            · rcases retryLoop_events heq _ h1 with h2 | ⟨k, h2⟩ <;> cases h2
    · cases h
      intro he
      rcases List.mem_cons.mp he with h1 | h1
      · cases h1
      rcases List.mem_cons.mp h1 with h2 | h2
      · cases h2
      · cases h2

theorem runBundles_no_finalized {S I E A : Type} {opts : PlaylistRunOptions} {source : S}
    {bs : List (Bundle S I E A)} {outs : Outputs E A} {fuel : Nat} {evs : List (Ev I E A)}
    {out : Except PlaylistError (Outputs E A)}
    (h : runBundles opts source bs outs fuel = some (evs, out)) :
    Ev.finalized ∉ evs := by
  induction bs generalizing outs evs out with
  | nil =>
    rw [runBundles] at h
    cases h
    exact List.not_mem_nil _
  | cons b rest ih =>
    rw [runBundles] at h
    split at h
    · cases h
    · rename_i evs1 e heq
      cases h
      exact runBundle_no_finalized heq
    · rename_i evs1 outs1 heq
      split at h
      · cases h
      · rename_i evs2 out2 heq2
        cases h
        intro he
        rcases List.mem_append.mp he with h1 | h1
        · exact runBundle_no_finalized heq h1
        · exact ih heq2 h1

/-- C7: a failing `validateInput` aborts the run. The thrown error names the
failing unit's ident; the binding's own `execute` is never invoked (its trace
stops at the failed validation event); nothing of any subsequent binding runs;
and whenever `Playlist.run` throws, the trace contains no finalizer
invocation. -/
theorem playlist_validation_aborts {S I E A : Type} (opts : PlaylistRunOptions) (source : S)
    (b : Bundle S I E A) (rest : List (Bundle S I E A)) (outs : Outputs E A) (fuel : Nat)
    (inp : I) (hbuilt : b.builder source outs = some inp)
    (hval : b.task.validateInput inp = false) :
    runBundles opts source (b :: rest) outs fuel =
      some ([Ev.builtInput b.task.ident outs (some inp), Ev.validated b.task.ident false],
        .error (.validationFailed b.task.ident)) ∧
    (∀ (q : PlaylistB S I E A) (evs : List (Ev I E A)) (e : PlaylistError),
      PlaylistB.run q source opts fuel = some (evs, .error e) → Ev.finalized ∉ evs) := by
  constructor
  · rw [runBundles]
    unfold runBundle
    rw [hbuilt]
    simp [hval]
  · intro q evs e hq
    unfold PlaylistB.run at hq
    split at hq
    · cases hq
    · rename_i evs1 e1 heq
      cases hq
      exact runBundles_no_finalized heq
    · cases hq


theorem any_key_eq_false_iff {E A : Type} (m : Outputs E A) (k : String) :
    m.any (fun p => p.1 == k) = false ↔ k ∉ m.map Prod.fst := by
  rw [← Bool.not_eq_true, List.any_eq_true]
  simp only [List.mem_map, beq_iff_eq]

theorem jsSet_fresh {E A : Type} (m : Outputs E A) (k : String)
    (v : Option (Railroad E A)) (h : k ∉ m.map Prod.fst) :
    jsSet m k v = m ++ [(k, v)] := by
  unfold jsSet
  rw [if_neg]
  rw [Bool.not_eq_true, any_key_eq_false_iff]
  exact h

theorem mem_jsSet {E A : Type} {m : Outputs E A} {k : String}
    {v : Option (Railroad E A)} {p : String × Option (Railroad E A)}
    (h : p ∈ jsSet m k v) : p ∈ m ∨ p = (k, v) := by
  unfold jsSet at h
  split at h
  · obtain ⟨q, hq, hqp⟩ := List.mem_map.mp h
    split at hqp
    · exact Or.inr hqp.symm
    · exact Or.inl (hqp ▸ hq)
  · rcases List.mem_append.mp h with h1 | h1
    · exact Or.inl h1
    · exact Or.inr (List.mem_singleton.mp h1)

theorem jsGet_replaced {E A : Type} (m : Outputs E A) (k : String)
    (v : Option (Railroad E A)) (hany : m.any (fun p => p.1 == k) = true) :
    jsGet (m.map (fun p => if p.1 == k then (k, v) else p)) k = some v := by
  induction m with
  | nil => cases hany
  | cons p m ih =>
    rw [List.map_cons]
    by_cases hp : (p.1 == k) = true
    · rw [if_pos hp]
      simp [jsGet]
    · rw [if_neg hp]
      rw [jsGet, if_neg (by simp [hp])]
      apply ih
      rcases List.any_eq_true.mp hany with ⟨q, hq, hqk⟩
      rcases List.mem_cons.mp hq with rfl | hq
      · exact absurd hqk hp
      · exact List.any_eq_true.mpr ⟨q, hq, hqk⟩

theorem jsGet_append_fresh {E A : Type} (m : Outputs E A) (k : String)
    (v : Option (Railroad E A)) (h : jsGet m k = none) :
    jsGet (m ++ [(k, v)]) k = some v := by
  induction m with
  | nil => simp [jsGet]
  | cons p m ih =>
    rw [jsGet] at h
    by_cases hp : (p.1 == k) = true
    · rw [if_pos hp] at h
      cases h
    · rw [if_neg hp] at h
      rw [List.cons_append, jsGet, if_neg hp]
      exact ih h

theorem jsGet_eq_none_of_fresh {E A : Type} (m : Outputs E A) (k : String)
    (h : k ∉ m.map Prod.fst) : jsGet m k = none := by
  induction m with
  | nil => rfl
  | cons p m ih =>
    rw [List.map_cons] at h
    rw [jsGet, if_neg]
    · exact ih (fun hmem => h (List.mem_cons_of_mem _ hmem))
    · simp only [beq_iff_eq]
      intro hcon
      exact h (hcon ▸ List.mem_cons_self ..)

theorem jsGet_jsSet_self {E A : Type} (m : Outputs E A) (k : String)
    (v : Option (Railroad E A)) : jsGet (jsSet m k v) k = some v := by
  unfold jsSet
  split
  · rename_i hany
    exact jsGet_replaced m k v hany
  · rename_i hany
    apply jsGet_append_fresh
    apply jsGet_eq_none_of_fresh
    rw [← any_key_eq_false_iff]
    exact Bool.not_eq_true _ ▸ hany

theorem jsGet_map_replace_ne {E A : Type} (m : Outputs E A) (k k' : String)
    (v : Option (Railroad E A)) (h : k ≠ k') :
    jsGet (m.map (fun p => if p.1 == k then (k, v) else p)) k' = jsGet m k' := by
  induction m with
  | nil => rfl
  | cons p m ih =>
    rw [List.map_cons]
    by_cases hp : (p.1 == k) = true
    · rw [if_pos hp]
      have hpk : (p.1 == k') = false := by
        simp only [beq_eq_false_iff_ne]
        intro hcon
        exact h ((beq_iff_eq.mp hp) ▸ hcon)
      rw [jsGet, if_neg (by simp [h]), jsGet, if_neg (by simp [hpk])]
      exact ih
    · rw [if_neg hp]
      by_cases hpk : (p.1 == k') = true
      · rw [jsGet, if_pos hpk, jsGet, if_pos hpk]
      · rw [jsGet, if_neg (by simp [hpk]), jsGet, if_neg (by simp [hpk])]
        exact ih

theorem jsGet_append_ne {E A : Type} (m : Outputs E A) (k k' : String)
    (v : Option (Railroad E A)) (h : k ≠ k') :
    jsGet (m ++ [(k, v)]) k' = jsGet m k' := by
  induction m with
  | nil => simp [jsGet, h]
  | cons p m ih =>
    by_cases hpk : (p.1 == k') = true
    · rw [List.cons_append, jsGet, if_pos hpk, jsGet, if_pos hpk]
    · rw [List.cons_append, jsGet, if_neg (by simp [hpk]), jsGet, if_neg (by simp [hpk])]
      exact ih

theorem jsGet_jsSet_ne {E A : Type} (m : Outputs E A) (k k' : String)
    (v : Option (Railroad E A)) (h : k ≠ k') : jsGet (jsSet m k v) k' = jsGet m k' := by
  unfold jsSet
  split
  · exact jsGet_map_replace_ne m k k' v h
  · exact jsGet_append_ne m k k' v h

theorem jsSet_keys_fresh {E A : Type} (m : Outputs E A) (k : String)
    (v : Option (Railroad E A)) (h : k ∉ m.map Prod.fst) :
    (jsSet m k v).map Prod.fst = m.map Prod.fst ++ [k] := by
  rw [jsSet_fresh m k v h, List.map_append]
  rfl

/-- All stored (non-null, non-skip) entries of an outputs map are success
Results. -/
def entriesSuccess {E A : Type} (outs : Outputs E A) : Prop :=
  ∀ p ∈ outs, ∀ r, p.2 = some r → r.isSuccess = true

theorem entriesSuccess_jsSet {E A : Type} {outs : Outputs E A} {k : String}
    {v : Option (Railroad E A)} (houts : entriesSuccess outs)
    (hv : ∀ r, v = some r → r.isSuccess = true) : entriesSuccess (jsSet outs k v) := by
  intro p hp r hr
  rcases mem_jsSet hp with h1 | rfl
  · exact houts p h1 r hr
  · exact hv r hr

theorem retryLoop_ok_success {I E A : Type} {t : TaskB I E A} {inp : I} {mr : Option Nat}
    {retries fuel : Nat} {revs : List (Ev I E A)} {r : Railroad E A}
    (h : retryLoop t inp mr retries fuel = some (revs, .ok r)) : r.isSuccess = true := by
  induction fuel generalizing retries revs with
  | zero => cases h
  | succ fuel ih =>
    rw [retryLoop] at h
    split at h
    · cases h
    · split at h
      · rename_i hsucc
        cases h
        exact hsucc
      · split at h
        · cases h
        · rename_i evs2 out2 heq
          cases h
          exact ih heq

theorem runBundle_ok_shape {S I E A : Type} {opts : PlaylistRunOptions} {source : S}
    {b : Bundle S I E A} {outs : Outputs E A} {fuel : Nat} {evs : List (Ev I E A)}
    {outs2 : Outputs E A}
    (h : runBundle opts source b outs fuel = some (evs, .ok outs2)) :
    ∃ v, outs2 = jsSet outs b.task.ident v ∧ (∀ r, v = some r → r.isSuccess = true) := by
  unfold runBundle at h
  split at h
  · cases h
    exact ⟨none, rfl, fun r hr => by cases hr⟩
  · rename_i inp hbuilt
    split at h
    · split at h
      · rename_i hsucc
        cases h
        exact ⟨some (b.task.run 0 inp), rfl, fun r hr => by cases hr; exact hsucc⟩
      · split at h
        · cases h
        · split at h
          · cases h
          · cases h
          · rename_i revs r heq
            cases h
            exact ⟨some r, rfl, fun r2 hr2 => by cases hr2; exact retryLoop_ok_success heq⟩
    · cases h

theorem runBundle_built_seen {S I E A : Type} {opts : PlaylistRunOptions} {source : S}
    {b : Bundle S I E A} {outs : Outputs E A} {fuel : Nat} {evs : List (Ev I E A)}
    {out : Except PlaylistError (Outputs E A)}
    (h : runBundle opts source b outs fuel = some (evs, out)) :
    ∀ id seen bi, Ev.builtInput id seen bi ∈ evs → seen = outs := by
  have hpre : ∀ (inp : I) id seen bi,
      Ev.builtInput id seen bi ∈ bindingPrefix b.task.ident outs inp → seen = outs := by
    intro inp id seen bi he
    rcases List.mem_cons.mp he with h1 | h1
    · cases h1
      rfl
    rcases List.mem_cons.mp h1 with h2 | h2
    · cases h2
    rcases List.mem_cons.mp h2 with h3 | h3
    · cases h3
    · cases h3
  unfold runBundle at h
  split at h
  · cases h
    intro id seen bi he
    rcases List.mem_cons.mp he with h1 | h1
    · cases h1
      rfl
    · cases h1
  · rename_i inp hbuilt
    split at h
    · split at h
      · cases h
        exact hpre inp
      · split at h
        · cases h
          exact hpre inp
        · split at h
          · cases h
          · rename_i revs e2 heq
            cases h
            intro id seen bi he
            rcases List.mem_append.mp he with h1 | h1
            · exact hpre inp id seen bi h1
            · rcases retryLoop_events heq _ h1 with h2 | ⟨k, h2⟩ <;> cases h2
          · rename_i revs r heq
            cases h
            intro id seen bi he
            rcases List.mem_append.mp he with h1 | h1
            · exact hpre inp id seen bi h1
            · rcases retryLoop_events heq _ h1 with h2 | ⟨k, h2⟩ <;> cases h2
    · cases h
      intro id seen bi he
      rcases List.mem_cons.mp he with h1 | h1
      · cases h1
        rfl
      rcases List.mem_cons.mp h1 with h2 | h2
      · cases h2
      · cases h2

theorem runBundles_success_inv {S I E A : Type} {opts : PlaylistRunOptions} {source : S}
    {bs : List (Bundle S I E A)} {outs : Outputs E A} {fuel : Nat} {evs : List (Ev I E A)}
    {out : Except PlaylistError (Outputs E A)}
    (houts : entriesSuccess outs)
    (h : runBundles opts source bs outs fuel = some (evs, out)) :
    (∀ outs2, out = .ok outs2 → entriesSuccess outs2) ∧
    (∀ id seen bi, Ev.builtInput id seen bi ∈ evs → entriesSuccess seen) := by
  induction bs generalizing outs evs out with
  | nil =>
    rw [runBundles] at h
    cases h
    refine ⟨fun outs2 h2 => ?_, fun id seen bi he => ?_⟩
    · cases h2
      exact houts
    · cases he
  | cons b rest ih =>
    rw [runBundles] at h
    split at h
    · cases h
    · rename_i evs1 e heq
      cases h
      refine ⟨fun outs2 h2 => ?_, ?_⟩
      · cases h2
      intro id seen bi he
      rw [runBundle_built_seen heq id seen bi he]
      exact houts
    · rename_i evs1 outs1 heq
      split at h
      · cases h
      · rename_i evs2 out2 heq2
        cases h
        obtain ⟨v, rfl, hv⟩ := runBundle_ok_shape heq
        have houts1 : entriesSuccess (jsSet outs b.task.ident v) :=
          entriesSuccess_jsSet houts hv
        obtain ⟨ih1, ih2⟩ := ih houts1 heq2
        refine ⟨ih1, ?_⟩
        intro id seen bi he
        rcases List.mem_append.mp he with h1 | h1
        · rw [runBundle_built_seen heq id seen bi h1]
          exact houts
        · exact ih2 id seen bi h1

/-- C10: whenever `Playlist.run` returns normally, every non-null entry of the
outputs map — as returned to the caller, as passed to the finalizer, and as
seen by every input builder along the way — is a success Result: a failure
Result is never recorded, because a failing execution either throws or is
retried until success before being stored. -/
theorem playlist_outputs_all_success {S I E A : Type} (p : PlaylistB S I E A) (source : S)
    (opts : PlaylistRunOptions) (fuel : Nat) (evs : List (Ev I E A)) (outs : Outputs E A)
    (h : PlaylistB.run p source opts fuel = some (evs, .ok outs)) :
    entriesSuccess outs ∧
    (∀ id seen bi, Ev.builtInput id seen bi ∈ evs → entriesSuccess seen) := by
  cases hsplit : runBundles opts source p.bundles [] fuel with
  | none =>
    rw [PlaylistB.run, hsplit] at h
    cases h
  | some pr =>
    obtain ⟨evs1, out1⟩ := pr
    cases out1 with
    | error e =>
      rw [PlaylistB.run, hsplit] at h
      cases h
    | ok outs1 =>
      rw [PlaylistB.run, hsplit] at h
      cases h
      have hnil : entriesSuccess ([] : Outputs E A) := fun q hq => by cases hq
      obtain ⟨h1, h2⟩ := runBundles_success_inv hnil hsplit
      refine ⟨h1 outs rfl, ?_⟩
      intro id seen bi he
      rcases List.mem_append.mp he with h3 | h3
      · exact h2 id seen bi h3
      · split at h3
        · rcases List.mem_cons.mp h3 with h4 | h4 <;> cases h4
        · cases h3

theorem runBundles_keys {S I E A : Type} {opts : PlaylistRunOptions} {source : S}
    {bs : List (Bundle S I E A)} {outs : Outputs E A} {fuel : Nat} {evs : List (Ev I E A)}
    {outs2 : Outputs E A}
    (hnodup : (bs.map (fun b => b.task.ident)).Nodup)
    (hfresh : ∀ b ∈ bs, b.task.ident ∉ outs.map Prod.fst)
    (h : runBundles opts source bs outs fuel = some (evs, .ok outs2)) :
    outs2.map Prod.fst = outs.map Prod.fst ++ bs.map (fun b => b.task.ident) := by
  induction bs generalizing outs evs outs2 with
  | nil =>
    rw [runBundles] at h
    cases h
    simp
  | cons b rest ih =>
    rw [runBundles] at h
    split at h
    · cases h
    · cases h
    · rename_i evs1 outs1 heq
      split at h
      · cases h
      · rename_i evs2 out2 heq2
        cases h
        obtain ⟨v, rfl, hv⟩ := runBundle_ok_shape heq
        have hbfresh : b.task.ident ∉ outs.map Prod.fst :=
          hfresh b (List.mem_cons_self ..)
        have hkeys : (jsSet outs b.task.ident v).map Prod.fst =
            outs.map Prod.fst ++ [b.task.ident] :=
          jsSet_keys_fresh outs b.task.ident v hbfresh
        rw [List.map_cons] at hnodup
        have hrest := ih (List.nodup_cons.mp hnodup).2 ?_ heq2
        · rw [hrest, hkeys, List.map_cons, List.append_assoc]
          rfl
        · intro b2 hb2
          rw [hkeys]
          intro hmem
          rcases List.mem_append.mp hmem with h1 | h1
          · exact hfresh b2 (List.mem_cons_of_mem _ hb2) h1
          · have hb2id : b2.task.ident = b.task.ident := List.mem_singleton.mp h1
            exact (List.nodup_cons.mp hnodup).1
              (hb2id ▸ List.mem_map.mpr ⟨b2, hb2, rfl⟩)

/-- C9 (amended): for every pipeline whose binding idents are pairwise
distinct, when `run` returns normally the returned map has exactly one entry
per declared binding, keyed by the binding's task ident and in declaration
order — no entry missing, none duplicated; each entry is an
`Option (Railroad ..)`: either a Result or the `null` skip marker. With
duplicated idents this fails: the JS object assignment silently overwrites the
earlier entry (see the collision counterexample). -/
theorem playlist_outputs_one_entry_per_binding {S I E A : Type} (p : PlaylistB S I E A)
    (source : S) (opts : PlaylistRunOptions) (fuel : Nat) (evs : List (Ev I E A))
    (outs : Outputs E A)
    (hnodup : (p.bundles.map (fun b => b.task.ident)).Nodup)
    (h : PlaylistB.run p source opts fuel = some (evs, .ok outs)) :
    outs.map Prod.fst = p.bundles.map (fun b => b.task.ident) ∧
    outs.length = p.bundles.length := by
  cases hsplit : runBundles opts source p.bundles [] fuel with
  | none =>
    rw [PlaylistB.run, hsplit] at h
    cases h
  | some pr =>
    obtain ⟨evs1, out1⟩ := pr
    cases out1 with
    | error e =>
      rw [PlaylistB.run, hsplit] at h
      cases h
    | ok outs1 =>
      rw [PlaylistB.run, hsplit] at h
      cases h
      have hkeys := runBundles_keys hnodup (fun b hb hmem => by cases hmem) hsplit
      rw [List.map_nil, List.nil_append] at hkeys
      constructor
      · exact hkeys
      · have h1 : outs.length = (outs.map Prod.fst).length := (List.length_map _ _).symm
        rw [h1, hkeys, List.length_map]

theorem runBundles_key_preserved {S I E A : Type} {opts : PlaylistRunOptions} {source : S}
    {bs : List (Bundle S I E A)} {outs : Outputs E A} {fuel : Nat} {evs : List (Ev I E A)}
    {out : Except PlaylistError (Outputs E A)} {key : String} {w : Option (Railroad E A)}
    (hk : jsGet outs key = some w)
    (hfresh : ∀ b ∈ bs, b.task.ident ≠ key)
    (h : runBundles opts source bs outs fuel = some (evs, out)) :
    (∀ id seen bi, Ev.builtInput id seen bi ∈ evs → jsGet seen key = some w) ∧
    (∀ outs2, out = .ok outs2 → jsGet outs2 key = some w) := by
  induction bs generalizing outs evs out with
  | nil =>
    rw [runBundles] at h
    cases h
    refine ⟨fun id seen bi he => ?_, fun outs2 h2 => ?_⟩
    · cases he
    · cases h2
      exact hk
  | cons b rest ih =>
    rw [runBundles] at h
    split at h
    · cases h
    · rename_i evs1 e heq
      cases h
      refine ⟨?_, fun outs2 h2 => ?_⟩
      · intro id seen bi he
        rw [runBundle_built_seen heq id seen bi he]
        exact hk
      · cases h2
    · rename_i evs1 outs1 heq
      split at h
      · cases h
      · rename_i evs2 out2 heq2
        cases h
        obtain ⟨v, rfl, hv⟩ := runBundle_ok_shape heq
        have hk1 : jsGet (jsSet outs b.task.ident v) key = some w := by
          rw [jsGet_jsSet_ne _ _ _ _ (hfresh b (List.mem_cons_self ..))]
          exact hk
        obtain ⟨ih1, ih2⟩ := ih hk1 (fun b2 hb2 => hfresh b2 (List.mem_cons_of_mem _ hb2)) heq2
        refine ⟨?_, ih2⟩
        intro id seen bi he
        rcases List.mem_append.mp he with h1 | h1
        · rw [runBundle_built_seen heq id seen bi h1]
          exact hk
        · exact ih1 id seen bi h1

/-- C6 (amended): a binding whose input builder returns the skip sentinel
(`null`) records the `null` skip marker under the task's ident without invoking
`validateInput` or `execute` (its whole contribution to the run is the single
builder event and the `null` entry), and the run continues with the next
binding; provided no later binding reuses that ident, every downstream input
builder — and the final outputs map — observes `null` (not a Result) under
that ident. (With a later same-ident binding the JS object entry is
overwritten, see the collision counterexample.) -/
theorem playlist_skip_semantics {S I E A : Type} (opts : PlaylistRunOptions) (source : S)
    (b : Bundle S I E A) (rest : List (Bundle S I E A)) (outs : Outputs E A) (fuel : Nat)
    (hskip : b.builder source outs = none)
    (hdistinct : ∀ b2 ∈ rest, b2.task.ident ≠ b.task.ident) :
    runBundle opts source b outs fuel =
      some ([Ev.builtInput b.task.ident outs none], .ok (jsSet outs b.task.ident none)) ∧
    (∀ evs out, runBundles opts source rest (jsSet outs b.task.ident none) fuel =
        some (evs, out) →
      runBundles opts source (b :: rest) outs fuel =
        some (Ev.builtInput b.task.ident outs none :: evs, out) ∧
      (∀ id seen bi, Ev.builtInput id seen bi ∈ evs →
        jsGet seen b.task.ident = some none) ∧
      (∀ outs2, out = .ok outs2 → jsGet outs2 b.task.ident = some none)) := by
  have hstep : runBundle opts source b outs fuel =
      some ([Ev.builtInput b.task.ident outs none], .ok (jsSet outs b.task.ident none)) := by
    unfold runBundle
    rw [hskip]
  refine ⟨hstep, ?_⟩
  intro evs out hrest
  have hcons : runBundles opts source (b :: rest) outs fuel =
      some (Ev.builtInput b.task.ident outs none :: evs, out) := by
    rw [runBundles]
    simp only [hstep, hrest]
    rfl
  have hget : jsGet (jsSet outs b.task.ident none) b.task.ident = some none :=
    jsGet_jsSet_self outs b.task.ident none
  obtain ⟨h1, h2⟩ := runBundles_key_preserved hget hdistinct hrest
  exact ⟨hcons, h1, h2⟩

def isSleepEv {I E A : Type} : Ev I E A → Bool
  | .slept => true
  | _ => false

def isExecEv {I E A : Type} : Ev I E A → Bool
  | .executed .. => true
  | _ => false

def isBuildEv {I E A : Type} : Ev I E A → Bool
  | .builtInput .. => true
  | _ => false

/-- The events of `n` consecutive retry-loop iterations starting at attempt
`a`: each iteration sleeps once and re-executes with the same input. -/
def sleepExecBlocks {I E A : Type} (ident : String) (inp : I) (a n : Nat) :
    List (Ev I E A) :=
  ((List.range' a n).map (fun k => [Ev.slept, Ev.executed ident inp k])).flatten

theorem sleepExecBlocks_succ {I E A : Type} (ident : String) (inp : I) (a n : Nat) :
    sleepExecBlocks ident inp a (n + 1) =
      Ev.slept :: Ev.executed ident inp a :: sleepExecBlocks (I := I) (E := E) (A := A) ident inp (a + 1) n := rfl

theorem filter_sleep_blocks {I E A : Type} (ident : String) (inp : I) (a n : Nat) :
    ((sleepExecBlocks (I := I) (E := E) (A := A) ident inp a n).filter isSleepEv).length
      = n := by
  induction n generalizing a with
  | zero => rfl
  | succ n ih =>
    rw [sleepExecBlocks_succ]
    rw [List.filter_cons_of_pos rfl, List.filter_cons_of_neg (by simp [isExecEv, isSleepEv])]
    rw [List.length_cons, ih]

theorem filter_exec_blocks {I E A : Type} (ident : String) (inp : I) (a n : Nat) :
    (sleepExecBlocks (I := I) (E := E) (A := A) ident inp a n).filter isExecEv
      = (List.range' a n).map (fun k => Ev.executed ident inp k) := by
  induction n generalizing a with
  | zero => rfl
  | succ n ih =>
    rw [sleepExecBlocks_succ]
    rw [List.filter_cons_of_neg (by simp [isExecEv, isSleepEv]), List.filter_cons_of_pos rfl]
    rw [List.range'_succ, List.map_cons, ih]

theorem filter_build_blocks {I E A : Type} (ident : String) (inp : I) (a n : Nat) :
    (sleepExecBlocks (I := I) (E := E) (A := A) ident inp a n).filter isBuildEv = [] := by
  induction n generalizing a with
  | zero => rfl
  | succ n ih =>
    rw [sleepExecBlocks_succ]
    rw [List.filter_cons_of_neg (by simp [isBuildEv]),
      List.filter_cons_of_neg (by simp [isBuildEv])]
    exact ih (a + 1)

theorem retryLoop_eventual_success {I E A : Type} (t : TaskB I E A) (inp : I) (M N : Nat)
    (hsucc : (t.run N inp).isSuccess = true)
    (hfail : ∀ k, k < N → (t.run k inp).isSuccess = false)
    (hM : N ≤ M) :
    ∀ fuel retries, retries < N → N - retries ≤ fuel →
      retryLoop t inp (some M) retries fuel =
        some (sleepExecBlocks t.ident inp (retries + 1) (N - retries), .ok (t.run N inp)) := by
  intro fuel
  induction fuel with
  | zero =>
    intro retries h1 h2
    omega
  | succ fuel ih =>
    intro retries h1 h2
    rw [retryLoop]
    rw [if_neg (by simp [retryLimitReached]; omega)]
    by_cases hr : retries + 1 = N
    · rw [if_pos (hr ▸ hsucc)]
      have hn1 : N - retries = 1 := by omega
      rw [hn1, sleepExecBlocks_succ, hr]
      rfl
    · have hlt : retries + 1 < N := by omega
      rw [if_neg (by rw [hfail (retries + 1) hlt]; simp)]
      rw [ih (retries + 1) hlt (by omega)]
      have hsub : N - retries = (N - (retries + 1)) + 1 := by omega
      rw [hsub, sleepExecBlocks_succ]

/-- C5: a task that fails exactly `N` times and then succeeds, run with retries
enabled (`retryDelay` set) and `maxRetries = M ≥ N`, ends with the success
Result recorded under the task's ident in the returned map; exactly `N` sleep
invocations occur; every execution (the initial attempt and all `N` retries)
receives the same input built before the first attempt; and the input builder
runs exactly once. -/
theorem playlist_retry_eventual_success {S I E A : Type} (source : S) (t : TaskB I E A)
    (bl : S → Outputs E A → Option I) (inp : I) (d M N fuel : Nat)
    (hbuilt : bl source [] = some inp)
    (hval : t.validateInput inp = true)
    (hfail : ∀ k, k < N → (t.run k inp).isSuccess = false)
    (hsucc : (t.run N inp).isSuccess = true)
    (hM : N ≤ M) (hfuel : N ≤ fuel) :
    ∃ evs, PlaylistB.run ⟨[⟨t, bl⟩], false⟩ source ⟨some d, some M⟩ fuel =
        some (evs, .ok [(t.ident, some (t.run N inp))]) ∧
      (evs.filter isSleepEv).length = N ∧
      evs.filter isExecEv = (List.range' 0 (N + 1)).map (fun k => Ev.executed t.ident inp k) ∧
      (evs.filter isBuildEv).length = 1 := by
  have hjs : jsSet ([] : Outputs E A) t.ident (some (t.run N inp)) =
      [(t.ident, some (t.run N inp))] := rfl
  by_cases hN : N = 0
  · subst hN
    refine ⟨bindingPrefix t.ident [] inp, ?_, ?_, ?_, ?_⟩
    · have hb : runBundle (PlaylistRunOptions.mk (some d) (some M)) source
          (Bundle.mk t bl) [] fuel =
          some (bindingPrefix t.ident [] inp, .ok (jsSet [] t.ident (some (t.run 0 inp)))) := by
        unfold runBundle
        rw [show (Bundle.mk t bl).builder = bl from rfl, show (Bundle.mk t bl).task = t from rfl]
        rw [hbuilt]
        simp only []
        rw [if_pos hval, if_pos hsucc]
      rw [PlaylistB.run]
      simp only [runBundles, hb]
      rw [hjs]
      simp [bindingPrefix]
    · rfl
    · rfl
    · rfl
  · have hNpos : 0 < N := Nat.pos_of_ne_zero hN
    have hretry := retryLoop_eventual_success t inp M N hsucc hfail hM fuel 0 hNpos
      (by omega)
    refine ⟨bindingPrefix t.ident [] inp ++ sleepExecBlocks t.ident inp 1 N, ?_, ?_, ?_, ?_⟩
    · have hb : runBundle (PlaylistRunOptions.mk (some d) (some M)) source
          (Bundle.mk t bl) [] fuel =
          some (bindingPrefix t.ident [] inp ++ sleepExecBlocks t.ident inp 1 N,
            .ok (jsSet [] t.ident (some (t.run N inp)))) := by
        unfold runBundle
        rw [show (Bundle.mk t bl).builder = bl from rfl, show (Bundle.mk t bl).task = t from rfl]
        rw [hbuilt]
        simp only []
        rw [if_pos hval, if_neg (by rw [hfail 0 hNpos]; simp)]
        rw [hretry]
        rfl
      rw [PlaylistB.run]
      simp only [runBundles, hb]
      rw [hjs]
      simp [bindingPrefix]
    · rw [List.filter_append]
      rw [show (bindingPrefix t.ident ([] : Outputs E A) inp).filter
        (isSleepEv (I := I) (E := E) (A := A)) = [] from rfl]
      rw [List.nil_append, filter_sleep_blocks]
    · rw [List.filter_append]
      rw [show (bindingPrefix t.ident ([] : Outputs E A) inp).filter
        (isExecEv (I := I) (E := E) (A := A)) = [Ev.executed t.ident inp 0] from rfl]
      rw [filter_exec_blocks, List.range'_succ, List.map_cons]
      rfl
    · rw [List.filter_append]
      rw [show (bindingPrefix t.ident ([] : Outputs E A) inp).filter
        (isBuildEv (I := I) (E := E) (A := A)) = [Ev.builtInput t.ident [] (some inp)] from rfl]
      rw [filter_build_blocks]
      rfl

/-! ### Concrete playlists used by witnesses and counterexamples -/

/-- A task that always validates and succeeds, echoing its input. -/
def taskSucc (id : String) : TaskB Nat Unit Nat :=
  ⟨id, fun _ => true, fun _ i => Railroad.success i⟩

/-- A task that fails on attempts 0 and 1 and succeeds from attempt 2 on. -/
def wTask : TaskB Nat Unit Nat :=
  ⟨"w", fun _ => true, fun k i => if k < 2 then Railroad.failure () else Railroad.success i⟩

/-- A task whose `validateInput` always returns false. -/
def rejTask : TaskB Nat Unit Nat :=
  ⟨"v", fun _ => false, fun _ i => Railroad.success i⟩

/-- Two bindings with distinct idents, both succeeding. -/
def pbPair : PlaylistB Unit Nat Unit Nat :=
  ⟨[⟨taskSucc "x", fun _ _ => some 1⟩, ⟨taskSucc "y", fun _ _ => some 2⟩], false⟩

/-- Two bindings sharing the ident `"a"`, both succeeding. -/
def pbCollide : PlaylistB Unit Nat Unit Nat :=
  ⟨[⟨taskSucc "a", fun _ _ => some 1⟩, ⟨taskSucc "a", fun _ _ => some 2⟩], false⟩

/-- A skipped binding with ident `"a"`, then a later binding reusing ident
`"a"`, then an observer binding `"c"`. -/
def pbSkipCollide : PlaylistB Unit Nat Unit Nat :=
  ⟨[⟨taskSucc "a", fun _ _ => none⟩, ⟨taskSucc "a", fun _ _ => some 5⟩,
    ⟨taskSucc "c", fun _ _ => some 0⟩], false⟩

theorem playlist_retry_eventual_success_witness :
    ∃ evs, PlaylistB.run (PlaylistB.mk [⟨wTask, fun _ _ => some 9⟩] false) ()
        (PlaylistRunOptions.mk (some 1) (some 3)) 5 =
        some (evs, .ok [("w", some (Railroad.success 9))]) ∧
      (evs.filter isSleepEv).length = 2 ∧
      evs.filter isExecEv = (List.range' 0 3).map (fun k => Ev.executed "w" 9 k) ∧
      (evs.filter isBuildEv).length = 1 :=
  playlist_retry_eventual_success () wTask (fun _ _ => some 9) 9 1 3 2 5 rfl rfl
    (by intro k hk; interval_cases k <;> rfl) rfl (by decide) (by decide)

theorem playlist_validation_aborts_witness :
    runBundles (PlaylistRunOptions.mk (some 1) none) ()
        [Bundle.mk rejTask (fun _ _ => some 1)] [] 1 =
      some ([Ev.builtInput "v" [] (some 1), Ev.validated "v" false],
        .error (.validationFailed "v")) ∧
    (∀ (q : PlaylistB Unit Nat Unit Nat) (evs : List (Ev Nat Unit Nat)) (e : PlaylistError),
      PlaylistB.run q () (PlaylistRunOptions.mk (some 1) none) 1 = some (evs, .error e) →
        Ev.finalized ∉ evs) :=
  playlist_validation_aborts (PlaylistRunOptions.mk (some 1) none) ()
    (Bundle.mk rejTask (fun _ _ => some 1)) [] [] 1 1 rfl rfl

theorem playlist_outputs_one_entry_per_binding_witness :
    ([("x", some (Railroad.success 1)), ("y", some (Railroad.success 2))] :
        Outputs Unit Nat).map Prod.fst = pbPair.bundles.map (fun b => b.task.ident) ∧
    ([("x", some (Railroad.success 1)), ("y", some (Railroad.success 2))] :
        Outputs Unit Nat).length = pbPair.bundles.length :=
  playlist_outputs_one_entry_per_binding pbPair () (PlaylistRunOptions.mk (some 1) none) 2
    [Ev.builtInput "x" [] (some 1), Ev.validated "x" true, Ev.executed "x" 1 0,
     Ev.builtInput "y" [("x", some (Railroad.success 1))] (some 2),
     Ev.validated "y" true, Ev.executed "y" 2 0]
    [("x", some (Railroad.success 1)), ("y", some (Railroad.success 2))]
    (by decide) rfl

theorem playlist_outputs_all_success_witness :
    entriesSuccess ([("x", some (Railroad.success 1)), ("y", some (Railroad.success 2))] :
      Outputs Unit Nat) ∧
    (∀ id seen bi, Ev.builtInput id seen bi ∈
        ([Ev.builtInput "x" [] (some 1), Ev.validated "x" true, Ev.executed "x" 1 0,
          Ev.builtInput "y" [("x", some (Railroad.success 1))] (some 2),
          Ev.validated "y" true, Ev.executed "y" 2 0] : List (Ev Nat Unit Nat)) →
      entriesSuccess seen) :=
  playlist_outputs_all_success pbPair () (PlaylistRunOptions.mk (some 1) none) 2
    [Ev.builtInput "x" [] (some 1), Ev.validated "x" true, Ev.executed "x" 1 0,
     Ev.builtInput "y" [("x", some (Railroad.success 1))] (some 2),
     Ev.validated "y" true, Ev.executed "y" 2 0]
    [("x", some (Railroad.success 1)), ("y", some (Railroad.success 2))]
    rfl

/-- C9 counterexample: with two bindings that share the ident `"a"` the run
returns a map with a single entry, not one entry per declared binding — the
second write silently overwrites the first. -/
theorem playlist_ident_collision_counterexample :
    ¬ (∀ (evs : List (Ev Nat Unit Nat)) (outs : Outputs Unit Nat),
        PlaylistB.run pbCollide () (PlaylistRunOptions.mk (some 1) none) 2 =
          some (evs, .ok outs) →
        outs.length = pbCollide.bundles.length) := by
  intro h
  have := h
    [Ev.builtInput "a" [] (some 1), Ev.validated "a" true, Ev.executed "a" 1 0,
     Ev.builtInput "a" [("a", some (Railroad.success 1))] (some 2),
     Ev.validated "a" true, Ev.executed "a" 2 0]
    [("a", some (Railroad.success 2))] rfl
  simp [pbCollide] at this

/-- C6 counterexample: the skipped binding's `null` marker is not what later
builders observe when a later binding reuses the same ident — the observer
binding `"c"` sees a success Result under `"a"`, not the skip marker. -/
theorem playlist_skip_downstream_counterexample :
    ¬ (∀ (evs : List (Ev Nat Unit Nat)) (out : Except PlaylistError (Outputs Unit Nat)),
        PlaylistB.run pbSkipCollide () (PlaylistRunOptions.mk (some 1) none) 2 =
          some (evs, out) →
        ∀ id seen bi, Ev.builtInput id seen bi ∈ evs →
          jsGet seen "a" = some none ∨ jsGet seen "a" = none) := by
  intro h
  have := h
    [Ev.builtInput "a" [] none,
     Ev.builtInput "a" [("a", none)] (some 5), Ev.validated "a" true, Ev.executed "a" 5 0,
     Ev.builtInput "c" [("a", some (Railroad.success 5))] (some 0),
     Ev.validated "c" true, Ev.executed "c" 0 0]
    (.ok [("a", some (Railroad.success 5)), ("c", some (Railroad.success 0))]) rfl
    "c" [("a", some (Railroad.success 5))] (some 0) (by decide)
  rcases this with h1 | h1 <;> simp [jsGet] at h1

theorem playlist_skip_semantics_witness :
    runBundle (PlaylistRunOptions.mk (some 1) none) ()
        (Bundle.mk (taskSucc "a") (fun _ _ => none)) [] 2 =
      some ([Ev.builtInput "a" [] none], .ok (jsSet [] "a" none)) ∧
    (∀ evs out,
      runBundles (PlaylistRunOptions.mk (some 1) none) ()
          [Bundle.mk (taskSucc "c") (fun _ _ => some 0)] (jsSet [] "a" none) 2 =
        some (evs, out) →
      runBundles (PlaylistRunOptions.mk (some 1) none) ()
          [Bundle.mk (taskSucc "a") (fun _ _ => none),
           Bundle.mk (taskSucc "c") (fun _ _ => some 0)] [] 2 =
        some (Ev.builtInput "a" [] none :: evs, out) ∧
      (∀ id seen bi, Ev.builtInput id seen bi ∈ evs → jsGet seen "a" = some none) ∧
      (∀ outs2, out = .ok outs2 → jsGet outs2 "a" = some none)) :=
  playlist_skip_semantics (PlaylistRunOptions.mk (some 1) none) ()
    (Bundle.mk (taskSucc "a") (fun _ _ => none))
    [Bundle.mk (taskSucc "c") (fun _ _ => some 0)] [] 2 rfl
    (by intro b2 hb2; rw [List.mem_singleton.mp hb2]; decide)

/-! ## Machine (Machine.ts, mode-aware version)

A finalized machine has pairwise-distinct node idents and every transition
target resolved against the registry, so the reference comparison
`resolvedNext === this.initialState` of the source coincides with comparing
node idents; transitions here carry the target's ident. `retry = none` models
`retry === false` (`preventRetry()`), `retry = some d` a delay of `d` ms.
`maxRetries = none` models `maxRetries === false` (unlimited), `maxRetries =
some m` a limit of `m`. A node's playlist execution is abstracted as a state
transformer `σ → σ` (the pipeline mutates the shared state object); machine
claims only depend on which pipelines run, in which order. -/

inductive Mode where
  | any
  | leaf
  | roundtrip
  | infinitely
deriving DecidableEq, Repr

/-- `RunOptions` of `Machine.run`. `interval` is only read in `infinitely`
mode, where it controls the untracked between-cycle sleep. -/
structure MRunOptions where
  mode : Mode
  stopAfter : Option Nat := none
  interval : Option Nat := none

structure MNode (σ : Type) where
  ident : String
  transitions : List (Transition σ String)
  retry : Option Nat := some 1000
  maxRetries : Option Nat := none
  playlistRun : σ → σ

structure MachineB (σ : Type) where
  nodes : List (MNode σ)
  initialIdent : String

/-- Registry lookup by ident (the `finalize` registry). -/
def MachineB.getNode {σ : Type} (M : MachineB σ) (id : String) : Option (MNode σ) :=
  M.nodes.find? (fun n => n.ident == id)

/-- The DFS of `getAllStates`, computed with enough fuel to exhaust the graph;
only its cardinality is consumed by the run loop (`visitedIdents.size >=
allStates.length`). -/
def dfsStates {σ : Type} (M : MachineB σ) : List String → List String → Nat → List String
  | _, visited, 0 => visited
  | [], visited, _ => visited
  | id :: stack, visited, fuel + 1 =>
    if visited.contains id then dfsStates M stack visited fuel
    else
      match M.getNode id with
      | none => dfsStates M stack visited fuel
      | some n =>
        dfsStates M (n.transitions.map (fun t => t.«to») ++ stack) (visited ++ [id]) fuel

def MachineB.allStatesCount {σ : Type} (M : MachineB σ) : Nat :=
  (dfsStates M [M.initialIdent] []
    ((M.nodes.length + 1) * (2 + (M.nodes.map (fun n => n.transitions.length)).sum))).length

/-- Why a `Machine.run` stopped; one constructor per `return` site of the run
loop (logger reasons `stopAfter`, `leaf`, `no-transition-no-retry`,
`retries-exhausted`, `roundtrip`, `all-visited`). -/
inductive StopReason where
  | stopAfterLimit
  | leafNode
  | noTransitionNoRetry
  | retriesExhausted
  | roundtripStop
  | allVisited
deriving DecidableEq, Repr

structure MachineOutcome (σ : Type) where
  reason : StopReason
  entries : List String
  state : σ
deriving DecidableEq, Repr

/-- The run loop's mutable state: the current node, the shared state object,
the visited-ident set, the node-entry counter (`transitionsCount`) and the
ordered list of node entries so far. -/
structure MConfig (σ : Type) where
  current : MNode σ
  data : σ
  visited : List String
  count : Nat
  entries : List String

/-- `Set.add` on the visited-idents set, insertion-ordered. -/
def addVisited (vs : List String) (id : String) : List String :=
  if vs.contains id then vs else vs ++ [id]

/-- `options.stopAfter !== undefined && transitionsCount >= options.stopAfter`. -/
def stopAfterReached (sa : Option Nat) (count : Nat) : Bool :=
  match sa with
  | some k => count ≥ k
  | none => false

inductive RetryOutcome where
  | found (target : String)
  | exhausted
deriving DecidableEq, Repr

/-- The no-transition retry sub-loop of `Machine.run`: check the retry limit,
sleep, re-evaluate `next`, and either break with a target or loop with the
attempt counter incremented. It contains no node entry and no `stopAfter`
check. Fuel bounds the unbounded `while`. -/
def machineRetry {σ : Type} (node : MNode σ) (data : σ) : Nat → Nat → Option RetryOutcome
  | _, 0 => none
  | retries, fuel + 1 =>
    if retryLimitReached node.maxRetries retries then some .exhausted
    else
      match nextTrans node.transitions data with
      | some t => some (.found t)
      | none => machineRetry node data (retries + 1) fuel

/-- Taking a resolved transition: the roundtrip check, then entry into the
target node (pipeline run, visited/count/entries update), then the `stopAfter`
and all-visited checks, in source order. -/
def mproceed {σ : Type} (M : MachineB σ) (opts : MRunOptions) (cfg : MConfig σ)
    (t : String) : Option (MachineOutcome σ ⊕ MConfig σ) :=
  if t == M.initialIdent && opts.mode != Mode.infinitely then
    some (.inl ⟨.roundtripStop, cfg.entries, cfg.data⟩)
  else
    match M.getNode t with
    | none => none
    | some node =>
      if stopAfterReached opts.stopAfter (cfg.count + 1) then
        some (.inl ⟨.stopAfterLimit, cfg.entries ++ [node.ident], node.playlistRun cfg.data⟩)
      else if decide ((addVisited cfg.visited node.ident).length ≥ M.allStatesCount)
          && (opts.mode == Mode.any) then
        some (.inl ⟨.allVisited, cfg.entries ++ [node.ident], node.playlistRun cfg.data⟩)
      else
        some (.inr ⟨node, node.playlistRun cfg.data, addVisited cfg.visited node.ident,
          cfg.count + 1, cfg.entries ++ [node.ident]⟩)

/-- One iteration of the `while (true)` loop of `Machine.run`: the leaf check
(a stop in every mode but `infinitely`), transition evaluation, the
no-transition retry policy, then `mproceed` on the selected target. -/
def mstep {σ : Type} (M : MachineB σ) (opts : MRunOptions) (cfg : MConfig σ)
    (fuel : Nat) : Option (MachineOutcome σ ⊕ MConfig σ) :=
  if cfg.current.transitions.isEmpty && opts.mode != Mode.infinitely then
    some (.inl ⟨.leafNode, cfg.entries, cfg.data⟩)
  else
    match nextTrans cfg.current.transitions cfg.data with
    | some t => mproceed M opts cfg t
    | none =>
      match cfg.current.retry with
      | none => some (.inl ⟨.noTransitionNoRetry, cfg.entries, cfg.data⟩)
      | some _ =>
        match machineRetry cfg.current cfg.data 0 fuel with
        | none => none
        | some .exhausted => some (.inl ⟨.retriesExhausted, cfg.entries, cfg.data⟩)
        | some (.found t) => mproceed M opts cfg t

def mloop {σ : Type} (M : MachineB σ) (opts : MRunOptions) :
    Nat → MConfig σ → Option (MachineOutcome σ)
  | 0, _ => none
  | fuel + 1, cfg =>
    match mstep M opts cfg fuel with
    | none => none
    | some (.inl res) => some res
    | some (.inr cfg2) => mloop M opts fuel cfg2

/-- `Machine.run` of a finalized machine: the `stopAfter === 0` early return,
entry into the initial node (always running its pipeline first), the
`stopAfter` check right after that entry, then the loop. -/
def machineRun {σ : Type} (M : MachineB σ) (opts : MRunOptions) (data0 : σ)
    (fuel : Nat) : Option (MachineOutcome σ) :=
  if opts.stopAfter == some 0 then some ⟨.stopAfterLimit, [], data0⟩
  else
    match M.getNode M.initialIdent with
    | none => none
    | some init =>
      if stopAfterReached opts.stopAfter 1 then
        some ⟨.stopAfterLimit, [init.ident], init.playlistRun data0⟩
      else
        mloop M opts fuel ⟨init, init.playlistRun data0, [init.ident], 1, [init.ident]⟩

/-! ### Concrete machines used by witnesses and counterexamples -/

/-- `A → B` with an always-true condition; entering `A` increments the state. -/
def nodeA1 : MNode Nat := ⟨"A", [⟨"B", fun _ => some true, 1⟩], some 1000, none, fun n => n + 1⟩

/-- A leaf node with `preventRetry()`. -/
def nodeLeafB : MNode Nat := ⟨"B", [], none, none, id⟩

def mAB : MachineB Nat := ⟨[nodeA1, nodeLeafB], "A"⟩

/-- The machine of the repository test "mode: 'leaf' continues through
roundtrip to reach leaf state": `A → B`, `B → L` once the counter (incremented
by `A`'s playlist) reaches 2 (weight 2), else `B → A` (weight 1). -/
def node608A : MNode Nat := ⟨"A", [⟨"B", fun _ => some true, 1⟩], some 1000, none, fun n => n + 1⟩

def node608B : MNode Nat :=
  ⟨"B", [⟨"L", fun n => some (decide (n ≥ 2)), 2⟩, ⟨"A", fun _ => some true, 1⟩],
    some 1000, none, id⟩

def node608L : MNode Nat := ⟨"L", [], some 1000, none, id⟩

def m608 : MachineB Nat := ⟨[node608A, node608B, node608L], "A"⟩

/-- A single node whose only transition's condition is constantly false, with
retries enabled (`retryDelayMs 5`) and no retry limit. -/
def nodeDiv : MNode Nat := ⟨"A", [⟨"A", fun _ => some false, 1⟩], some 5, none, id⟩

def mDiv : MachineB Nat := ⟨[nodeDiv], "A"⟩

def optsDiv : MRunOptions := ⟨Mode.infinitely, some 2, some 1⟩

def cfgDiv : MConfig Nat := ⟨nodeDiv, 0, ["A"], 1, ["A"]⟩

/-- C1 (amended): in roundtrip mode a node with zero outgoing transitions IS a
stop condition by itself: the loop returns at the leaf check — before
evaluating transitions and before any retry-on-no-transition logic — because
the leaf check stops the run in every mode except `infinitely`. -/
theorem machine_roundtrip_leaf_is_terminal {σ : Type} (M : MachineB σ)
    (opts : MRunOptions) (cfg : MConfig σ) (fuel : Nat)
    (hmode : opts.mode = Mode.roundtrip) (hleaf : cfg.current.transitions = []) :
    mloop M opts (fuel + 1) cfg = some ⟨.leafNode, cfg.entries, cfg.data⟩ := by
  rw [mloop]
  unfold mstep
  rw [hleaf, hmode]
  rfl

theorem machine_roundtrip_leaf_is_terminal_witness :
    mloop mAB (MRunOptions.mk Mode.roundtrip none none) 3
      (MConfig.mk nodeLeafB 1 ["A", "B"] 2 ["A", "B"]) =
      some ⟨.leafNode, ["A", "B"], 1⟩ :=
  machine_roundtrip_leaf_is_terminal mAB (MRunOptions.mk Mode.roundtrip none none)
    (MConfig.mk nodeLeafB 1 ["A", "B"] 2 ["A", "B"]) 2 rfl rfl

/-- C1 counterexample: a run in roundtrip mode that enters the leaf `B` (which
has `preventRetry()`, so the claim predicts a `no-transition-no-retry` stop
after falling through to the retry logic) in fact returns at the leaf check
with reason `leaf`, never reaching retry logic. -/
theorem machine_roundtrip_leaf_counterexample :
    machineRun mAB (MRunOptions.mk Mode.roundtrip none none) 0 5 =
      some ⟨.leafNode, ["A", "B"], 1⟩ ∧
    StopReason.leafNode ≠ StopReason.noTransitionNoRetry := ⟨rfl, by decide⟩

/-- C2: evaluated at the machine of the repository's own test
"mode: 'leaf' continues through roundtrip to reach leaf state" (which asserts
the visit log `[A, B, A, B, leaf]`), `Machine.run` in leaf mode stops with
reason `roundtrip` after entering only `[A, B]`: the roundtrip check is active
in every mode except `infinitely`, so a transition resolving to the initial
node terminates the run in leaf mode, contradicting the test and the spec. -/
theorem machine_leaf_mode_stops_on_roundtrip_eval :
    machineRun m608 (MRunOptions.mk Mode.leaf none none) 0 10 =
      some ⟨.roundtripStop, ["A", "B"], 1⟩ ∧
    StopReason.roundtripStop ≠ StopReason.leafNode := ⟨rfl, by decide⟩

theorem mproceed_inl_entries {σ : Type} {M : MachineB σ} {opts : MRunOptions}
    {cfg : MConfig σ} {t : String} {res : MachineOutcome σ}
    (h : mproceed M opts cfg t = some (.inl res)) :
    res.entries = cfg.entries ∨ ∃ id, res.entries = cfg.entries ++ [id] := by
  unfold mproceed at h
  split at h
  · cases h
    exact Or.inl rfl
  · split at h
    · cases h
    · split at h
      · cases h
        exact Or.inr ⟨_, rfl⟩
      · split at h
        · cases h
          exact Or.inr ⟨_, rfl⟩
        · cases h

theorem mproceed_inr_invariant {σ : Type} {M : MachineB σ} {opts : MRunOptions}
    {cfg : MConfig σ} {t : String} {cfg2 : MConfig σ}
    (h : mproceed M opts cfg t = some (.inr cfg2)) :
    cfg2.count = cfg.count + 1 ∧ cfg2.entries.length = cfg.entries.length + 1 ∧
    stopAfterReached opts.stopAfter cfg2.count = false := by
  unfold mproceed at h
  split at h
  · cases h
  · split at h
    · cases h
    · split at h
      · cases h
      · split at h
        · cases h
        · rename_i node hnode hsa hav
          cases h
          refine ⟨rfl, ?_, ?_⟩
          · rw [List.length_append]
            rfl
          · exact Bool.not_eq_true _ ▸ hsa

theorem mstep_inl_entries {σ : Type} {M : MachineB σ} {opts : MRunOptions}
    {cfg : MConfig σ} {fuel : Nat} {res : MachineOutcome σ}
    (h : mstep M opts cfg fuel = some (.inl res)) :
    res.entries = cfg.entries ∨ ∃ id, res.entries = cfg.entries ++ [id] := by
  unfold mstep at h
  split at h
  · cases h
    exact Or.inl rfl
  · split at h
    · exact mproceed_inl_entries h
    · split at h
      · cases h
        exact Or.inl rfl
      · split at h
        · cases h
        · cases h
          exact Or.inl rfl
        · exact mproceed_inl_entries h

theorem mstep_inr_invariant {σ : Type} {M : MachineB σ} {opts : MRunOptions}
    {cfg : MConfig σ} {fuel : Nat} {cfg2 : MConfig σ}
    (h : mstep M opts cfg fuel = some (.inr cfg2)) :
    cfg2.count = cfg.count + 1 ∧ cfg2.entries.length = cfg.entries.length + 1 ∧
    stopAfterReached opts.stopAfter cfg2.count = false := by
  unfold mstep at h
  split at h
  · cases h
  · split at h
    · exact mproceed_inr_invariant h
    · split at h
      · cases h
      · split at h
        · cases h
        · cases h
        · exact mproceed_inr_invariant h

theorem mloop_entries_bound {σ : Type} (M : MachineB σ) (opts : MRunOptions) (k : Nat)
    (hsa : opts.stopAfter = some k) :
    ∀ (fuel : Nat) (cfg : MConfig σ) (res : MachineOutcome σ),
      cfg.entries.length = cfg.count → cfg.count < k →
      mloop M opts fuel cfg = some res → res.entries.length ≤ k := by
  intro fuel
  induction fuel with
  | zero =>
    intro cfg res h1 h2 h
    cases h
  | succ fuel ih =>
    intro cfg res h1 h2 h
    rw [mloop] at h
    split at h
    · cases h
    · rename_i out hst
      cases h
      rcases mstep_inl_entries hst with he | ⟨id, he⟩
      · rw [he, h1]
        omega
      · rw [he, List.length_append, h1]
        simp only [List.length_cons, List.length_nil]
        omega
    · rename_i cfg2 hst
      obtain ⟨hc, hl, hstop⟩ := mstep_inr_invariant hst
      rw [hsa] at hstop
      have hc2 : cfg2.count < k := by
        unfold stopAfterReached at hstop
        simp only [decide_eq_false_iff_not, Nat.not_le] at hstop
        omega
      exact ih cfg2 res (by omega) hc2 h

/-- C3 (amended): `stopAfter = k` bounds the number of node entries by `k`,
with the check made immediately after each entry, and `stopAfter = 0` returns
before the initial node's pipeline ever runs. The claim's further assertion —
that `stopAfter` can interrupt the no-transition retry sub-loop — is false:
that sub-loop performs no node entries and never consults `stopAfter` (see the
starvation counterexample). -/
theorem machine_stopAfter_entry_bound {σ : Type} (M : MachineB σ) (opts : MRunOptions)
    (data0 : σ) (fuel k : Nat) (hsa : opts.stopAfter = some k) :
    (∀ res, machineRun M opts data0 fuel = some res → res.entries.length ≤ k) ∧
    (k = 0 → machineRun M opts data0 fuel = some ⟨.stopAfterLimit, [], data0⟩) := by
  constructor
  · intro res h
    unfold machineRun at h
    split at h
    · cases h
      rename_i h0
      simp only [beq_iff_eq, hsa] at h0
      cases h0
      simp
    · rename_i h0
      rw [hsa] at h0
      have hk0 : k ≠ 0 := by
        intro hcon
        rw [hcon] at h0
        simp at h0
      split at h
      · cases h
      · split at h
        · cases h
          simp only [List.length_cons, List.length_nil]
          omega
        · rename_i init hinit hone
          rw [hsa] at hone
          have h1k : 1 < k := by
            have hone2 : ¬(1 ≥ k) := by
              intro hge
              exact hone (by unfold stopAfterReached; simp [hge])
            omega
          exact mloop_entries_bound M opts k hsa fuel _ res rfl h1k h
  · intro hk0
    subst hk0
    unfold machineRun
    rw [if_pos (by rw [hsa]; rfl)]

theorem machine_stopAfter_entry_bound_witness :
    (∀ res, machineRun mAB (MRunOptions.mk Mode.any (some 0) none) 0 5 = some res →
      res.entries.length ≤ 0) ∧
    ((0 : Nat) = 0 → machineRun mAB (MRunOptions.mk Mode.any (some 0) none) 0 5 =
      some ⟨.stopAfterLimit, [], 0⟩) :=
  machine_stopAfter_entry_bound mAB (MRunOptions.mk Mode.any (some 0) none) 0 5 0 rfl

theorem machineRetry_div_none : ∀ (fuel retries : Nat),
    machineRetry nodeDiv 0 retries fuel = none := by
  intro fuel
  induction fuel with
  | zero => intro retries; rfl
  | succ fuel ih =>
    intro retries
    rw [machineRetry]
    have hlim : retryLimitReached nodeDiv.maxRetries retries = false := rfl
    have hnext : nextTrans nodeDiv.transitions (0 : Nat) = none := rfl
    simp only [hlim, hnext]
    simp only [Bool.false_eq_true, if_false]
    exact ih (retries + 1)

theorem mstep_div_none : ∀ fuel : Nat, mstep mDiv optsDiv cfgDiv fuel = none := by
  intro fuel
  unfold mstep
  rw [if_neg (by decide)]
  rw [show nextTrans cfgDiv.current.transitions cfgDiv.data = none from rfl]
  rw [show cfgDiv.current.retry = some 5 from rfl]
  rw [show machineRetry cfgDiv.current cfgDiv.data 0 fuel = none from
    machineRetry_div_none fuel 0]

theorem mloop_div_none : ∀ fuel : Nat, mloop mDiv optsDiv fuel cfgDiv = none := by
  intro fuel
  cases fuel with
  | zero => rfl
  | succ fuel =>
    rw [mloop, mstep_div_none fuel]

/-- C3 counterexample (retry starvation): with retries enabled, no retry
limit, and a transition condition that never becomes true, `Machine.run`
under `stopAfter = 2` never terminates — the no-transition retry sub-loop
performs no node entries and is never interrupted by `stopAfter`, refuting the
claim that the run "performs at most k node entries and then terminates" with
`stopAfter` able to interrupt the retry sub-loop. -/
theorem machine_stopAfter_retry_starvation :
    ¬ ∃ (fuel : Nat) (res : MachineOutcome Nat),
        machineRun mDiv optsDiv 0 fuel = some res := by
  intro ⟨fuel, res, h⟩
  rw [show machineRun mDiv optsDiv 0 fuel = mloop mDiv optsDiv fuel cfgDiv from rfl] at h
  rw [mloop_div_none fuel] at h
  cases h

/-- Three transitions: equal-condition targets `"A"` (weight 1) and `"B"`
(weight 2), plus a highest-weight transition to `"C"` whose condition throws. -/
def exTs : List (Transition Nat String) :=
  [⟨"A", fun _ => some true, 1⟩, ⟨"B", fun _ => some true, 2⟩, ⟨"C", fun _ => none, 3⟩]

theorem stateNode_next_selection_spec_witness :
    ∃ p ∈ withIdx exTs, p.t.«to» = "B" ∧ condFires (0 : Nat) p.t = true ∧
      ∀ q ∈ withIdx exTs, condFires (0 : Nat) q.t = true →
        (q.t.weight < p.t.weight ∨ (p.t.weight = q.t.weight ∧ p.i ≤ q.i)) :=
  (stateNode_next_selection_spec exTs 0).2 "B" rfl
